import Mathlib

/-!
# Verification of the `headless-primitives-kit` interactive-state engine

Shallow embedding of the core engine of the repository:

* `EventEmitter` (`src/unnamed/part_024`, TS source, and
  `src/dist/components/headless-logic/event-emitter.js`, the shipped build):
  subscribe / unsubscribe / notifyObservers.  The two copies differ in one
  point: the TS copy iterates the **live** subscriber array
  (`this.observers.get(event)!.forEach(...)`) while the dist copy iterates a
  **copy** (`[...(this.observers.get(event))].forEach(...)`, with the comment
  "Iterate over a copy in case a callback unsubscribes itself or others").
  Both iteration disciplines are modelled below.
* `CommandInvoker` (`src/src/components/headless-logic/command.ts`):
  history list plus integer cursor.
* `HeadlessComponent` (`src/src/components/headless-logic/headless-component.ts`):
  data-state snapshot, visual-state registry, command history and the
  notification log, with `setState` / `undo` / `redo` / `transitionToState`.
* The interaction strategies of
  `src/src/components/headless-logic/interaction-strategies.ts`
  (`ToggleClickStrategy`, `HoverStrategy`, `SliderUpdateStrategy`,
  `SliderKeyboardStrategy`) instantiated at the toggle and slider widgets.

Modelling conventions: JavaScript objects holding the data state become Lean
structures; `JSON.stringify(a) === JSON.stringify(b)` on two snapshots that
were produced by object spread from the same base object (hence share key set
and key order) becomes decidable structural equality; the `error : any | null`
field is modelled by a `Bool` recording whether a truthy error is present;
JavaScript numbers in the slider are modelled by exact rationals (`ℚ`), with
`Math.round` being `round` (both round half towards +∞); side effects
(`enter` / `exit` hooks and `notifyObservers` calls) are recorded in an
append-only log.  Notification payloads are elided from the log: no claim
below depends on a payload, only on which events fire and in which order.
-/

/-! ## Event emitter: subscriber-list mutation during delivery

A callback is identified by a `Nat` id (JS compares callbacks by object
reference; the id plays the role of the reference).  What a callback does to
the emitter when invoked is modelled by a small action type: nothing,
unsubscribe the first subscriber with a given id (`unsubscribe` does
`indexOf` + `splice(index, 1)`), or subscribe a fresh callback (`subscribe`
pushes to the end of the list). -/

inductive CbAct where
  | noop : CbAct
  | unsub (target : Nat) : CbAct
  | sub (newId : Nat) : CbAct
deriving DecidableEq, Repr

structure Cb where
  id : Nat
  act : CbAct
deriving DecidableEq, Repr

/-- Effect of one callback invocation on the live subscriber list.
`unsub t` is `unsubscribe`: remove the first occurrence (by identity) of the
callback `t`; `sub n` is `subscribe`: push a (no-op) callback at the end. -/
def applyAct : CbAct → List Cb → List Cb
  | CbAct.noop, l => l
  | CbAct.unsub t, l => l.eraseP (fun cb => cb.id == t)
  | CbAct.sub n, l => l ++ [⟨n, CbAct.noop⟩]

/-- `Array.prototype.forEach` over the **live** array, as in the TS
`EventEmitter.notifyObservers` of `src/unnamed/part_024` (lines 106-116):
the iteration bound is the length captured when delivery starts (`fuel`),
and at index `k` the callback currently stored at `k` is invoked if the
index still exists (`HasProperty` check; `splice` keeps the array dense, so
index `k` exists iff `k < length`).  Returns the invocation log (callback
ids in invocation order) and the final subscriber list. -/
def forEachLive : Nat → Nat → List Cb → List Nat → List Nat × List Cb
  | 0, _, live, inv => (inv, live)
  | fuel + 1, k, live, inv =>
    match live[k]? with
    | some cb => forEachLive fuel (k + 1) (applyAct cb.act live) (inv ++ [cb.id])
    | none => forEachLive fuel (k + 1) live inv

/-- `notifyObservers` of the TS emitter (`src/unnamed/part_024`): iterate the
live subscriber array. -/
def notifyLive (l : List Cb) : List Nat × List Cb :=
  forEachLive l.length 0 l []

/-- `notifyObservers` of the dist emitter
(`src/dist/components/headless-logic/event-emitter.js`, lines 42-54):
`[...(this.observers.get(event))].forEach(...)` — iterate a **copy** taken
when delivery starts, so every callback of the copy is invoked exactly once
while mutations apply to the live list only. -/
def notifySnapshot (l : List Cb) : List Nat × List Cb :=
  l.foldl (fun (acc : List Nat × List Cb) cb =>
    (acc.1 ++ [cb.id], applyAct cb.act acc.2)) ([], l)

/-! ## Event emitter: exception isolation (C8)

For exception isolation the relevant part of a callback is whether it throws;
`callCb` models the invocation `callback(event, data)`.  The loop body of
`notifyObservers` wraps each invocation in `try { ... } catch (error) {
console.error(...) }`: a thrown error is caught, logged and **not**
rethrown.  `notifyObservers8` is that loop as an `Except`-monadic fold, so
that an uncaught error in the body would abort the remaining delivery and
surface to the caller; the catch is the `Except.ok` in the error branch of
`tryCatchLog`.  The result records the ids invoked and the errors logged. -/

structure Cb8 where
  id : Nat
  throws : Bool
deriving DecidableEq, Repr

/-- One callback invocation: returns normally or throws. -/
def callCb (cb : Cb8) : Except String Unit :=
  if cb.throws then Except.error "callback error" else Except.ok ()

/-- Loop body of `notifyObservers`: `try { callback(event, data) } catch
(error) { console.error(...) }` — the callback is invoked (its id is
recorded either way); a thrown error is caught and logged, never rethrown. -/
def tryCatchLog (acc : List Nat × List String) (cb : Cb8) :
    Except String (List Nat × List String) :=
  match callCb cb with
  | Except.ok _ => Except.ok (acc.1 ++ [cb.id], acc.2)
  | Except.error e => Except.ok (acc.1 ++ [cb.id], acc.2 ++ [e])

/-- Delivery loop of `notifyObservers` with the per-callback try/catch.  An
`Except.error` outcome would mean a callback exception aborted delivery and
propagated to the caller of `notifyObservers`. -/
def notifyObservers8 (l : List Cb8) : Except String (List Nat × List String) :=
  l.foldlM tryCatchLog ([], [])

/-! ## Event emitter: subscribe / unsubscribe (C9)

At the level of a single event's subscriber list, callbacks are ids.
`subscribe` pushes unconditionally (duplicate registration allowed);
`unsubscribe` does `indexOf` + `splice(index, 1)` when found — i.e. it
removes the **first** occurrence, which is `List.erase`. -/

def emitterSubscribe (l : List Nat) (id : Nat) : List Nat := l ++ [id]

def emitterUnsubscribe (l : List Nat) (id : Nat) : List Nat := l.erase id

/-! ## Command invoker (`src/src/components/headless-logic/command.ts`)

`CommandInvoker` keeps an array of commands and an `Int` cursor
`currentPosition`, initialised to `[]` / `-1`.  Commands are opaque here
(type parameter `α`); the invoker invokes their `execute` / `undo` closures
but never inspects them.  `undo` / `redo` therefore return, besides the
updated invoker and the boolean result, the command whose closure the source
invokes (`none` when nothing is invoked).  `history.slice(0, currentPosition
+ 1)` is `take (currentPosition + 1).toNat`, which agrees with `slice` for
`currentPosition + 1 ≥ 0`, i.e. on every reachable invoker. -/

structure CommandInvoker (α : Type) where
  history : List α
  currentPosition : Int
deriving DecidableEq, Repr

namespace CommandInvoker

/-- `new CommandInvoker()`. -/
def init {α : Type} : CommandInvoker α := ⟨[], -1⟩

/-- `canUndo(): boolean { return this.currentPosition >= 0; }` -/
def canUndo {α : Type} (inv : CommandInvoker α) : Bool :=
  decide (0 ≤ inv.currentPosition)

/-- `canRedo(): boolean { return this.currentPosition < this.history.length - 1; }` -/
def canRedo {α : Type} (inv : CommandInvoker α) : Bool :=
  decide (inv.currentPosition < (inv.history.length : Int) - 1)

/-- `execute(command)`: run `command.execute()` (a no-op on the invoker
itself — the closure only touches the component), truncate the redo branch,
push, set the cursor to the new tail. -/
def execute {α : Type} (inv : CommandInvoker α) (c : α) : CommandInvoker α :=
  let h := inv.history.take (inv.currentPosition + 1).toNat ++ [c]
  { history := h, currentPosition := (h.length : Int) - 1 }

/-- `undo()`: if `canUndo()`, invoke `history[currentPosition].undo()`
(returned as the `Option α` component), decrement the cursor, return true;
otherwise return false. -/
def undo {α : Type} (inv : CommandInvoker α) :
    CommandInvoker α × Bool × Option α :=
  if inv.canUndo then
    ({ inv with currentPosition := inv.currentPosition - 1 }, true,
      inv.history[inv.currentPosition.toNat]?)
  else (inv, false, none)

/-- `redo()`: if `canRedo()`, increment the cursor, invoke
`history[currentPosition].execute()` (returned as the `Option α`
component), return true; otherwise return false. -/
def redo {α : Type} (inv : CommandInvoker α) :
    CommandInvoker α × Bool × Option α :=
  if inv.canRedo then
    ({ inv with currentPosition := inv.currentPosition + 1 }, true,
      inv.history[(inv.currentPosition + 1).toNat]?)
  else (inv, false, none)

/-- `getHistory()` result `{length, currentPosition, canUndo, canRedo}`. -/
structure HistoryState where
  length : Nat
  currentPosition : Int
  canUndo : Bool
  canRedo : Bool
deriving DecidableEq, Repr

/-- `getHistory()` — a pure query. -/
def getHistory {α : Type} (inv : CommandInvoker α) : HistoryState :=
  ⟨inv.history.length, inv.currentPosition, inv.canUndo, inv.canRedo⟩

end CommandInvoker

/-- The invoker states reachable from `new CommandInvoker()` by any
interleaving of `execute`, `undo` and `redo` (`getHistory` does not change
the state). -/
inductive ReachableInvoker {α : Type} : CommandInvoker α → Prop where
  | init : ReachableInvoker CommandInvoker.init
  | exec {inv : CommandInvoker α} (c : α) :
      ReachableInvoker inv → ReachableInvoker (inv.execute c)
  | undo {inv : CommandInvoker α} :
      ReachableInvoker inv → ReachableInvoker inv.undo.1
  | redo {inv : CommandInvoker α} :
      ReachableInvoker inv → ReachableInvoker inv.redo.1

/-! ## The orchestrator (`src/src/components/headless-logic/headless-component.ts`)

`Comp σ` is a `HeadlessComponent<TState>` with data-state type `σ`:

* `state` — the current data snapshot (`this.state`);
* `registry` — the names registered in `this.states` (the default registry
  installed by `setupDefaultStates`; it is set up once at construction, so a
  name resolves to the same `ComponentState` instance for the lifetime of
  the instance and object identity of nodes coincides with name equality);
* `current` — the name of `this.currentState` (`none` for `null`);
* `hist` / `pos` — the embedded `CommandInvoker`: each command created by
  `setState` is the captured pair `(previousState, nextState)` of snapshots,
  and its `execute` / `undo` closures adopt the captured snapshot, re-run
  the visual-state derivation and publish `stateChanged`;
* `log` — every `notifyObservers` call and every `enter()` / `exit()` hook
  invocation, in execution order.

The widget's abstract `updateCurrentStateBasedOnData` hook is passed in as
`derive : σ → String`, the priority-ordered predicate chain returning the
name of the node to transition to. -/

inductive LogEntry where
  | exitHook (name : String) : LogEntry
  | enterHook (name : String) : LogEntry
  | notifyEv (event : String) : LogEntry
deriving DecidableEq, Repr

structure Comp (σ : Type) where
  state : σ
  registry : List String
  current : Option String
  hist : List (σ × σ)
  pos : Int
  log : List LogEntry
deriving DecidableEq, Repr

/-- Result object of an interaction strategy
(`{prevented: bool, reason?: string, handled?: bool}`). -/
structure InteractionResult where
  prevented : Bool
  reason : Option String
  handled : Option Bool
deriving DecidableEq, Repr

/-- `notifyObservers(event, ...)` — appends the notification to the log. -/
def compNotify {σ : Type} (c : Comp σ) (event : String) : Comp σ :=
  { c with log := c.log ++ [LogEntry.notifyEv event] }

/-- `transitionToState(stateName)`: missing name → warn and return; target
identical to the current node → return; otherwise `exit()` the outgoing
node, set `currentState`, `enter()` the incoming node, then publish
`stateTransition` followed by `cssStateChanged`. -/
def transitionToState {σ : Type} (c : Comp σ) (name : String) : Comp σ :=
  if name ∈ c.registry then
    if c.current = some name then c
    else
      { c with
        current := some name,
        log := c.log ++
          (match c.current with
            | some old => [LogEntry.exitHook old]
            | none => []) ++
          [LogEntry.enterHook name, LogEntry.notifyEv "stateTransition",
            LogEntry.notifyEv "cssStateChanged"] }
  else c

/-- `this.updateCurrentStateBasedOnData(this.state)`: evaluate the widget's
priority chain on the snapshot and transition to the selected node. -/
def updateCurrent {σ : Type} (derive : σ → String) (c : Comp σ) : Comp σ :=
  transitionToState c (derive c.state)

/-- The `execute` closure of the command built by `setState`: adopt the
captured `nextState` snapshot, re-derive the visual state, publish
`stateChanged`. -/
def cmdExec {σ : Type} (derive : σ → String) (c : Comp σ) (cmd : σ × σ) :
    Comp σ :=
  compNotify (updateCurrent derive { c with state := cmd.2 }) "stateChanged"

/-- The `undo` closure of the command built by `setState`: adopt the
captured `previousState` snapshot, re-derive the visual state, publish
`stateChanged`. -/
def cmdUndo {σ : Type} (derive : σ → String) (c : Comp σ) (cmd : σ × σ) :
    Comp σ :=
  compNotify (updateCurrent derive { c with state := cmd.1 }) "stateChanged"

/-- `setState(newState)` after the merge: `next` is the already-merged
candidate `{...this.state, ...newState}`.  If it is structurally equal to
the current snapshot (`JSON.stringify` comparison of two spread-copies with
identical key order), return false and do nothing.  Otherwise build the
command over the captured `(previousState, nextState)` pair and push it
through `commandInvoker.execute`, which first runs the forward closure and
then truncates the redo branch, appends, and moves the cursor to the tail. -/
def setStateFull {σ : Type} [DecidableEq σ] (derive : σ → String)
    (c : Comp σ) (next : σ) : Comp σ × Bool :=
  if c.state = next then (c, false)
  else
    let c1 := cmdExec derive c (c.state, next)
    let h := c1.hist.take (c1.pos + 1).toNat ++ [(c.state, next)]
    ({ c1 with hist := h, pos := (h.length : Int) - 1 }, true)

/-- Component `undo()`: delegate to `commandInvoker.undo()` (which invokes
the `undo` closure of `history[currentPosition]` and decrements the cursor)
and, only on a true result, publish `historyChanged`.  The inner `none`
branch is unreachable for well-formed components (`pos ≤ hist.length - 1`);
the source would throw there. -/
def compUndo {σ : Type} (derive : σ → String) (c : Comp σ) : Comp σ × Bool :=
  if 0 ≤ c.pos then
    match c.hist[c.pos.toNat]? with
    | some cmd =>
        let c1 := cmdUndo derive c cmd
        (compNotify { c1 with pos := c1.pos - 1 } "historyChanged", true)
    | none => (c, false)
  else (c, false)

/-- Component `redo()`: delegate to `commandInvoker.redo()` (which
increments the cursor and invokes the `execute` closure of the command now
under it) and, only on a true result, publish `historyChanged`.  The inner
`none` branch is unreachable for well-formed components. -/
def compRedo {σ : Type} (derive : σ → String) (c : Comp σ) : Comp σ × Bool :=
  if c.pos < (c.hist.length : Int) - 1 then
    match c.hist[(c.pos + 1).toNat]? with
    | some cmd =>
        (compNotify (cmdExec derive { c with pos := c.pos + 1 } cmd)
          "historyChanged", true)
    | none => (c, false)
  else (c, false)

/-- `getHistory()` of the component (pure query on the embedded invoker). -/
def compHistory {σ : Type} (c : Comp σ) : CommandInvoker.HistoryState :=
  ⟨c.hist.length, c.pos, decide (0 ≤ c.pos),
    decide (c.pos < (c.hist.length : Int) - 1)⟩

/-- The constructor of `HeadlessComponent`: initial data state from the
`defineInitialState` hook, default visual-state registry, empty history with
cursor `-1`, then one run of the visual-state derivation against the
initial snapshot. -/
def buildComp {σ : Type} (derive : σ → String) (init : σ) : Comp σ :=
  updateCurrent derive
    { state := init,
      registry := ["idle", "hovered", "focused", "pressed", "disabled",
        "loading", "error"],
      current := none,
      hist := [],
      pos := -1,
      log := [] }

/-- Well-formedness: the cursor is in `[-1, hist.length - 1]`.  Holds at
construction and is preserved by every operation. -/
def CompWF {σ : Type} (c : Comp σ) : Prop :=
  -1 ≤ c.pos ∧ c.pos ≤ (c.hist.length : Int) - 1

instance {σ : Type} (c : Comp σ) : Decidable (CompWF c) := by
  unfold CompWF; infer_instance

/-! ### Iterated operation helpers (for the round-trip claim C2)

`runSets` performs a sequence of `setState` calls; because each call merges
its partial into the **current** snapshot, a call in a sequence is
characterised by the function `g : σ → σ` taking the current snapshot to
the merged candidate (for a widget, `g = fun s => merge s p` for the call's
partial `p`).  `setsOk` states that every call in the sequence returned
true. -/

def runSets {σ : Type} [DecidableEq σ] (derive : σ → String) :
    Comp σ → List (σ → σ) → Comp σ
  | c, [] => c
  | c, g :: gs => runSets derive (setStateFull derive c (g c.state)).1 gs

def setsOk {σ : Type} [DecidableEq σ] (derive : σ → String) :
    Comp σ → List (σ → σ) → Prop
  | _, [] => True
  | c, g :: gs => (setStateFull derive c (g c.state)).2 = true ∧
      setsOk derive (setStateFull derive c (g c.state)).1 gs

def undoN {σ : Type} (derive : σ → String) : Comp σ → Nat → Comp σ
  | c, 0 => c
  | c, n + 1 => undoN derive (compUndo derive c).1 n

def redoN {σ : Type} (derive : σ → String) : Comp σ → Nat → Comp σ
  | c, 0 => c
  | c, n + 1 => redoN derive (compRedo derive c).1 n

/-- The command list laid down by a successful `setState` sequence: the
captured `(previousState, nextState)` snapshot pairs, each call starting
from the previous call's result. -/
def chainOf {σ : Type} (s : σ) : List (σ → σ) → List (σ × σ)
  | [] => []
  | g :: gs => (s, g s) :: chainOf (g s) gs

/-- The data state after a `setState` sequence. -/
def endOf {σ : Type} (s : σ) : List (σ → σ) → σ
  | [] => s
  | g :: gs => endOf (g s) gs

/-- `IsCmdChain s l t`: the command list `l` is a linked chain of
`(previous, next)` snapshot pairs leading from state `s` to state `t`. -/
inductive IsCmdChain {σ : Type} : σ → List (σ × σ) → σ → Prop where
  | nil (s : σ) : IsCmdChain s [] s
  | cons (a : σ) {b t : σ} {l : List (σ × σ)} :
      IsCmdChain b l t → IsCmdChain a ((a, b) :: l) t

/-! ## Toggle widget (`HeadlessToggle`, `src/unnamed/part_024`)

`ToggleState` is the toggle's data state (`defineInitialState` plus the
`isChecked` field); `error` records whether a truthy error value is set.
`TogglePatch` is a `Partial<ToggleState>`: a field is `none` when absent
from the partial.  `mergeToggle` is the object spread
`{...this.state, ...newState}`. -/

structure ToggleState where
  isChecked : Bool
  isDisabled : Bool
  isHovered : Bool
  isFocused : Bool
  isPressed : Bool
  isLoading : Bool
  error : Bool
deriving DecidableEq, Repr

structure TogglePatch where
  isChecked : Option Bool := none
  isDisabled : Option Bool := none
  isHovered : Option Bool := none
  isFocused : Option Bool := none
  isPressed : Option Bool := none
  isLoading : Option Bool := none
  error : Option Bool := none
deriving DecidableEq, Repr

def mergeToggle (s : ToggleState) (p : TogglePatch) : ToggleState :=
  { isChecked := p.isChecked.getD s.isChecked,
    isDisabled := p.isDisabled.getD s.isDisabled,
    isHovered := p.isHovered.getD s.isHovered,
    isFocused := p.isFocused.getD s.isFocused,
    isPressed := p.isPressed.getD s.isPressed,
    isLoading := p.isLoading.getD s.isLoading,
    error := p.error.getD s.error }

/-- `HeadlessToggle.updateCurrentStateBasedOnData`: the priority chain
disabled > loading > error > pressed > focused > hovered > idle. -/
def deriveToggle (s : ToggleState) : String :=
  if s.isDisabled then "disabled"
  else if s.isLoading then "loading"
  else if s.error then "error"
  else if s.isPressed then "pressed"
  else if s.isFocused then "focused"
  else if s.isHovered then "hovered"
  else "idle"

/-- `HeadlessToggle.defineInitialState()`. -/
def toggleInit : ToggleState :=
  { isChecked := false, isDisabled := false, isHovered := false,
    isFocused := false, isPressed := false, isLoading := false,
    error := false }

/-- A freshly constructed `HeadlessToggle`. -/
def toggleComp : Comp ToggleState := buildComp deriveToggle toggleInit

/-- `setState` of the toggle component: merge the partial, then the generic
`setState`. -/
def setStateToggle (c : Comp ToggleState) (p : TogglePatch) :
    Comp ToggleState × Bool :=
  setStateFull deriveToggle c (mergeToggle c.state p)

/-- `ToggleClickStrategy.handle`
(`src/src/components/headless-logic/interaction-strategies.ts`, lines
56-73): guard on `isDisabled || isLoading`, otherwise flip `isChecked` via
`setState` and publish the semantic `toggled` event. -/
def toggleClickHandle (c : Comp ToggleState) :
    Comp ToggleState × InteractionResult :=
  let s := c.state
  if s.isDisabled || s.isLoading then
    (c, ⟨true, some "disabled or loading", some false⟩)
  else
    let c1 := (setStateToggle c { isChecked := some (!s.isChecked) }).1
    (compNotify c1 "toggled", ⟨false, none, some true⟩)

/-- `HoverStrategy.handle` (same file, lines 96-117) at the toggle widget:
while disabled, still `setState` the hover flag (visual feedback) but do not
publish `hoverChanged`; otherwise `setState` and publish `hoverChanged` only
when the flag actually flips. -/
def hoverHandle (c : Comp ToggleState) (isHovered : Bool) :
    Comp ToggleState × InteractionResult :=
  let s := c.state
  if s.isDisabled then
    ((setStateToggle c { isHovered := some isHovered }).1,
      ⟨false, some "disabled, visual hover only", some true⟩)
  else if s.isHovered != isHovered then
    let c1 := (setStateToggle c { isHovered := some isHovered }).1
    (compNotify c1 "hoverChanged", ⟨false, none, some true⟩)
  else (c, ⟨false, none, some true⟩)

/-! ## Slider widget (`HeadlessSlider`,
`src/src/components/headless-logic/headless-slider.ts`)

Numbers are exact rationals; `Math.round` is `round` (`⌊x + 1/2⌋`, half
towards +∞ like JS).  The slider's `defineInitialState` has no `isLoading`
field and its priority chain is disabled > error > pressed > focused >
hovered > idle. -/

structure SliderState where
  value : ℚ
  min : ℚ
  max : ℚ
  step : ℚ
  isDisabled : Bool
  isHovered : Bool
  isFocused : Bool
  isPressed : Bool
  error : Bool
deriving DecidableEq, Repr

def deriveSlider (s : SliderState) : String :=
  if s.isDisabled then "disabled"
  else if s.error then "error"
  else if s.isPressed then "pressed"
  else if s.isFocused then "focused"
  else if s.isHovered then "hovered"
  else "idle"

/-- The value computation shared by `SliderUpdateStrategy.handle` and the
handled branch of `SliderKeyboardStrategy.handle`: clamp to `[min, max]`,
snap to the step grid anchored at `min`, clamp again. -/
def sliderClampStep (mn mx st v : ℚ) : ℚ :=
  let c1 := max mn (min mx v)
  let c2 := (round ((c1 - mn) / st) : ℚ) * st + mn
  max mn (min mx c2)

/-- The committing tail shared verbatim by `SliderUpdateStrategy.handle` and
the handled branch of `SliderKeyboardStrategy.handle` (the source comment
reads "delegating to the same logic as SliderUpdateStrategy essentially"):
clamp-step-clamp the raw value, and only when the result differs from the
current value, `setState({value})` and publish `valueChanged`. -/
def sliderCommit (c : Comp SliderState) (v0 : ℚ) :
    Comp SliderState × InteractionResult :=
  let s := c.state
  let nv := sliderClampStep s.min s.max s.step v0
  if s.value = nv then (c, ⟨false, none, some true⟩)
  else
    let c1 := (setStateFull deriveSlider c { s with value := nv }).1
    (compNotify c1 "valueChanged", ⟨false, none, some true⟩)

/-- `SliderUpdateStrategy.handle` (interaction-strategies.ts, lines
260-285): guard on `isDisabled`, then commit the payload value. -/
def sliderUpdateHandle (c : Comp SliderState) (v : ℚ) :
    Comp SliderState × InteractionResult :=
  if c.state.isDisabled then (c, ⟨true, some "disabled", some false⟩)
  else sliderCommit c v

/-- `SliderKeyboardStrategy.handle` (interaction-strategies.ts, lines
291-348): guard on `isDisabled`; Arrow keys move by one step, Home/End jump
to the range ends, any other key is not handled; a handled key's raw value
goes through the same commit logic as the update strategy. -/
def sliderKeyHandle (c : Comp SliderState) (key : String) :
    Comp SliderState × InteractionResult :=
  let s := c.state
  if s.isDisabled then (c, ⟨true, some "disabled", some false⟩)
  else
    let nv0 : Option ℚ :=
      if key = "ArrowLeft" ∨ key = "ArrowDown" then some (s.value - s.step)
      else if key = "ArrowRight" ∨ key = "ArrowUp" then some (s.value + s.step)
      else if key = "Home" then some s.min
      else if key = "End" then some s.max
      else none
    match nv0 with
    | none => (c, ⟨false, none, some false⟩)
    | some v0 => sliderCommit c v0

/-- A slider component used as concrete input in counterexamples: the data
state is directly constructible because `setState` is public on
`HeadlessComponent`, so `setState({value: 500})` bypasses the strategies'
clamping. -/
def sliderBad : Comp SliderState :=
  buildComp deriveSlider
    { value := 500, min := 0, max := 100, step := 1, isDisabled := true,
      isHovered := false, isFocused := false, isPressed := false,
      error := false }

/-! ## Concrete instances used by witnesses and counterexamples -/

/-- The invoker contract stated by the spec for §4.2: cursor range, the
`canUndo` / `canRedo` equivalences, and the exact behaviour of `undo()` /
`redo()` at and away from the ends of the history. -/
def invokerContract {α : Type} (inv : CommandInvoker α) : Prop :=
  (-1 ≤ inv.currentPosition ∧
    inv.currentPosition ≤ (inv.history.length : Int) - 1) ∧
  (inv.canUndo = true ↔ 0 ≤ inv.currentPosition) ∧
  (inv.canRedo = true ↔ inv.currentPosition < (inv.history.length : Int) - 1) ∧
  (inv.currentPosition = -1 → inv.undo = (inv, false, none)) ∧
  (0 ≤ inv.currentPosition →
    inv.undo = ({ inv with currentPosition := inv.currentPosition - 1 }, true,
      inv.history[inv.currentPosition.toNat]?) ∧
    (inv.history[inv.currentPosition.toNat]?).isSome = true) ∧
  (inv.currentPosition = (inv.history.length : Int) - 1 →
    inv.redo = (inv, false, none)) ∧
  (inv.currentPosition < (inv.history.length : Int) - 1 →
    inv.redo = ({ inv with currentPosition := inv.currentPosition + 1 }, true,
      inv.history[(inv.currentPosition + 1).toNat]?) ∧
    (inv.history[(inv.currentPosition + 1).toNat]?).isSome = true)

/-- A small reachable invoker: one command executed after construction. -/
def invokerDemo : CommandInvoker Nat := CommandInvoker.init.execute 7

/-- A freshly constructed disabled toggle. -/
def toggleDisabled : Comp ToggleState :=
  buildComp deriveToggle { toggleInit with isDisabled := true }

/-- A one-call `setState` sequence for the round-trip witness: check the
toggle. -/
def toggleSeq : List (ToggleState → ToggleState) :=
  [fun s => mergeToggle s { isChecked := some true }]

/-- Toggle with one committed `setState` (checked), used by the C5 witness. -/
def toggleOnce : Comp ToggleState :=
  (setStateToggle toggleComp { isChecked := some true }).1

/-- The merged candidate used by the C5 witness after the undo. -/
def toggleCheckedState : ToggleState := { toggleInit with isChecked := true }

/-- A freshly constructed slider (value 0, range [0, 100], step 1). -/
def sliderComp : Comp SliderState :=
  buildComp deriveSlider
    { value := 0, min := 0, max := 100, step := 1, isDisabled := false,
      isHovered := false, isFocused := false, isPressed := false,
      error := false }

/-! ## Helper lemmas for the delivery models -/

/-- `transitionToState` never touches the data state. -/
theorem transitionToState_state {σ : Type} (c : Comp σ) (name : String) :
    (transitionToState c name).state = c.state := by
  unfold transitionToState
  split_ifs <;> rfl

/-- `transitionToState` never touches the history. -/
theorem transitionToState_hist {σ : Type} (c : Comp σ) (name : String) :
    (transitionToState c name).hist = c.hist := by
  unfold transitionToState
  split_ifs <;> rfl

/-- `transitionToState` never touches the cursor. -/
theorem transitionToState_pos {σ : Type} (c : Comp σ) (name : String) :
    (transitionToState c name).pos = c.pos := by
  unfold transitionToState
  split_ifs <;> rfl

theorem cmdExec_state {σ : Type} (derive : σ → String) (c : Comp σ)
    (cmd : σ × σ) : (cmdExec derive c cmd).state = cmd.2 := by
  unfold cmdExec compNotify updateCurrent
  rw [transitionToState_state]

theorem cmdExec_hist {σ : Type} (derive : σ → String) (c : Comp σ)
    (cmd : σ × σ) : (cmdExec derive c cmd).hist = c.hist := by
  unfold cmdExec compNotify updateCurrent
  rw [transitionToState_hist]

theorem cmdExec_pos {σ : Type} (derive : σ → String) (c : Comp σ)
    (cmd : σ × σ) : (cmdExec derive c cmd).pos = c.pos := by
  unfold cmdExec compNotify updateCurrent
  rw [transitionToState_pos]

theorem cmdUndo_state {σ : Type} (derive : σ → String) (c : Comp σ)
    (cmd : σ × σ) : (cmdUndo derive c cmd).state = cmd.1 := by
  unfold cmdUndo compNotify updateCurrent
  rw [transitionToState_state]

theorem cmdUndo_hist {σ : Type} (derive : σ → String) (c : Comp σ)
    (cmd : σ × σ) : (cmdUndo derive c cmd).hist = c.hist := by
  unfold cmdUndo compNotify updateCurrent
  rw [transitionToState_hist]

theorem cmdUndo_pos {σ : Type} (derive : σ → String) (c : Comp σ)
    (cmd : σ × σ) : (cmdUndo derive c cmd).pos = c.pos := by
  unfold cmdUndo compNotify updateCurrent
  rw [transitionToState_pos]

/-- `setState` reports a change exactly when the merged candidate differs
from the current snapshot. -/
theorem setStateFull_snd_iff {σ : Type} [DecidableEq σ] (derive : σ → String)
    (c : Comp σ) (next : σ) :
    (setStateFull derive c next).2 = true ↔ c.state ≠ next := by
  unfold setStateFull
  split_ifs with h <;> simp [h]

theorem setStateFull_state {σ : Type} [DecidableEq σ] (derive : σ → String)
    (c : Comp σ) (next : σ) (h : c.state ≠ next) :
    (setStateFull derive c next).1.state = next := by
  unfold setStateFull
  rw [if_neg h]
  exact cmdExec_state derive c (c.state, next)

theorem setStateFull_hist {σ : Type} [DecidableEq σ] (derive : σ → String)
    (c : Comp σ) (next : σ) (h : c.state ≠ next) :
    (setStateFull derive c next).1.hist =
      c.hist.take (c.pos + 1).toNat ++ [(c.state, next)] := by
  unfold setStateFull
  rw [if_neg h]
  simp only [cmdExec_hist, cmdExec_pos]

theorem setStateFull_pos {σ : Type} [DecidableEq σ] (derive : σ → String)
    (c : Comp σ) (next : σ) (h : c.state ≠ next) :
    (setStateFull derive c next).1.pos =
      ((c.hist.take (c.pos + 1).toNat).length : Int) := by
  unfold setStateFull
  rw [if_neg h]
  simp only [cmdExec_hist, cmdExec_pos, List.length_append,
    List.length_cons, List.length_nil]
  push_cast
  ring

/-- After any successful `setState` the cursor sits at the tail of the
history. -/
theorem setStateFull_cursor_tail {σ : Type} [DecidableEq σ]
    (derive : σ → String) (c : Comp σ) (next : σ)
    (h : (setStateFull derive c next).2 = true) :
    (setStateFull derive c next).1.pos =
      ((setStateFull derive c next).1.hist.length : Int) - 1 := by
  have hne : c.state ≠ next := (setStateFull_snd_iff derive c next).1 h
  rw [setStateFull_pos derive c next hne, setStateFull_hist derive c next hne]
  simp

/-- Characterisation of a successful component `undo()`. -/
theorem compUndo_spec {σ : Type} (derive : σ → String) (c : Comp σ)
    (cmd : σ × σ) (h0 : 0 ≤ c.pos)
    (hget : c.hist[c.pos.toNat]? = some cmd) :
    (compUndo derive c).2 = true ∧
    (compUndo derive c).1.state = cmd.1 ∧
    (compUndo derive c).1.hist = c.hist ∧
    (compUndo derive c).1.pos = c.pos - 1 := by
  unfold compUndo
  rw [if_pos h0, hget]
  refine ⟨rfl, ?_, ?_, ?_⟩ <;>
    simp [compNotify, cmdUndo_state, cmdUndo_hist, cmdUndo_pos]

/-- Characterisation of a successful component `redo()`. -/
theorem compRedo_spec {σ : Type} (derive : σ → String) (c : Comp σ)
    (cmd : σ × σ) (h0 : c.pos < (c.hist.length : Int) - 1)
    (hget : c.hist[(c.pos + 1).toNat]? = some cmd) :
    (compRedo derive c).2 = true ∧
    (compRedo derive c).1.state = cmd.2 ∧
    (compRedo derive c).1.hist = c.hist ∧
    (compRedo derive c).1.pos = c.pos + 1 := by
  unfold compRedo
  rw [if_pos h0, hget]
  refine ⟨rfl, ?_, ?_, ?_⟩
  · simpa [compNotify] using cmdExec_state derive { c with pos := c.pos + 1 } cmd
  · simpa [compNotify] using cmdExec_hist derive { c with pos := c.pos + 1 } cmd
  · simpa [compNotify] using cmdExec_pos derive { c with pos := c.pos + 1 } cmd

/-- The cursor invariant holds on every invoker state reachable from
`new CommandInvoker()`. -/
theorem reachableInvoker_bounds {α : Type} {inv : CommandInvoker α}
    (h : ReachableInvoker inv) :
    -1 ≤ inv.currentPosition ∧
      inv.currentPosition ≤ (inv.history.length : Int) - 1 := by
  induction h with
  | init => simp [CommandInvoker.init]
  | exec c _ ih =>
      simp only [CommandInvoker.execute, List.length_append,
        List.length_cons, List.length_nil]
      push_cast
      omega
  | undo _ ih =>
      rw [CommandInvoker.undo]
      split_ifs with hc
      · simp only [CommandInvoker.canUndo, decide_eq_true_eq] at hc
        simp only []
        omega
      · exact ih
  | redo _ ih =>
      rw [CommandInvoker.redo]
      split_ifs with hc
      · simp only [CommandInvoker.canRedo, decide_eq_true_eq] at hc
        simp only []
        omega
      · exact ih

theorem undoN_zero {σ : Type} (derive : σ → String) (c : Comp σ) :
    undoN derive c 0 = c := rfl

theorem undoN_succ {σ : Type} (derive : σ → String) (c : Comp σ) (n : Nat) :
    undoN derive c (n + 1) = undoN derive (compUndo derive c).1 n := rfl

theorem redoN_zero {σ : Type} (derive : σ → String) (c : Comp σ) :
    redoN derive c 0 = c := rfl

theorem redoN_succ {σ : Type} (derive : σ → String) (c : Comp σ) (n : Nat) :
    redoN derive c (n + 1) = redoN derive (compRedo derive c).1 n := rfl

theorem isCmdChain_nil_inv {σ : Type} {s t : σ}
    (h : IsCmdChain s ([] : List (σ × σ)) t) : s = t := by
  cases h; rfl

theorem isCmdChain_snoc_inv {σ : Type} {l : List (σ × σ)} {s t a b : σ} :
    IsCmdChain s (l ++ [(a, b)]) t → IsCmdChain s l a ∧ t = b := by
  induction l generalizing s with
  | nil =>
      intro h
      cases h with
      | cons _ h' =>
          exact ⟨IsCmdChain.nil _, (isCmdChain_nil_inv h').symm⟩
  | cons p l ih =>
      obtain ⟨x, y⟩ := p
      intro h
      cases h with
      | cons _ h' =>
          obtain ⟨h1, h2⟩ := ih h'
          exact ⟨IsCmdChain.cons _ h1, h2⟩

theorem chainOf_isCmdChain {σ : Type} (gs : List (σ → σ)) :
    ∀ s : σ, IsCmdChain s (chainOf s gs) (endOf s gs) := by
  induction gs with
  | nil => intro s; exact IsCmdChain.nil s
  | cons g gs ih => intro s; exact IsCmdChain.cons s (ih (g s))

theorem chainOf_length {σ : Type} (gs : List (σ → σ)) :
    ∀ s : σ, (chainOf s gs).length = gs.length := by
  induction gs with
  | nil => intro s; rfl
  | cons g gs ih => intro s; simp [chainOf, ih]

/-- Undoing down a chain of commands: with the history being `H ++ l ++ T`,
the cursor at the end of `l` and the data state at the chain's end, `l.length`
`undo()` calls walk the chain back to its start, leave the history untouched
and park the cursor just below `H`'s tail. -/
theorem undo_chain {σ : Type} (derive : σ → String) (l : List (σ × σ)) :
    ∀ (H T : List (σ × σ)) (s0 sf : σ) (c : Comp σ),
      IsCmdChain s0 l sf → c.hist = H ++ l ++ T →
      c.pos = (H.length : Int) + l.length - 1 → c.state = sf →
      (undoN derive c l.length).state = s0 ∧
      (undoN derive c l.length).hist = c.hist ∧
      (undoN derive c l.length).pos = (H.length : Int) - 1 := by
  induction l using List.reverseRecOn with
  | nil =>
      intro H T s0 sf c hch hh hp hs
      have hst : s0 = sf := isCmdChain_nil_inv hch
      simp only [List.length_nil] at hp ⊢
      simp only [undoN_zero]
      refine ⟨by rw [hs, hst], by trivial, by omega⟩
  | append_singleton l' p ih =>
      obtain ⟨a, b⟩ := p
      intro H T s0 sf c hch hh hp hs
      obtain ⟨hch', hb⟩ := isCmdChain_snoc_inv hch
      rw [hb] at hs
      have hh' : c.hist = (H ++ l') ++ ((a, b) :: T) := by
        rw [hh]; simp
      have hlen : (l' ++ [(a, b)]).length = l'.length + 1 := by simp
      have hp' : c.pos = (H.length : Int) + l'.length := by
        rw [hp, hlen]; push_cast; ring
      have h0 : 0 ≤ c.pos := by rw [hp']; positivity
      have htn : c.pos.toNat = (H ++ l').length := by
        simp only [List.length_append]
        omega
      have hget : c.hist[c.pos.toNat]? = some (a, b) := by
        rw [hh', htn, List.getElem?_append_right (le_refl (H ++ l').length)]
        simp
      obtain ⟨-, hstate, hhist, hpos⟩ := compUndo_spec derive c (a, b) h0 hget
      have step : undoN derive c (l' ++ [(a, b)]).length
          = undoN derive (compUndo derive c).1 l'.length := by
        rw [hlen, undoN_succ]
      obtain ⟨r1, r2, r3⟩ := ih H ((a, b) :: T) s0 a (compUndo derive c).1 hch'
        (by rw [hhist, hh']; try simp)
        (by rw [hpos, hp']; try ring)
        hstate
      refine ⟨?_, ?_, ?_⟩
      · rw [step]; exact r1
      · rw [step, r2, hhist]
      · rw [step]; exact r3

/-- Redoing up a chain of commands: with the cursor parked just below the
chain and the data state at the chain's start, `l.length` `redo()` calls walk
the chain forward to its end. -/
theorem redo_chain {σ : Type} (derive : σ → String) {l : List (σ × σ)}
    {s0 sf : σ} (hch : IsCmdChain s0 l sf) :
    ∀ (H T : List (σ × σ)) (c : Comp σ),
      c.hist = H ++ l ++ T → c.pos = (H.length : Int) - 1 → c.state = s0 →
      (redoN derive c l.length).state = sf ∧
      (redoN derive c l.length).hist = c.hist ∧
      (redoN derive c l.length).pos = (H.length : Int) + l.length - 1 := by
  induction hch with
  | nil s =>
      intro H T c hh hp hs
      simp only [List.length_nil] at hp ⊢
      simp only [redoN_zero]
      exact ⟨hs, by trivial, by omega⟩
  | cons a hch' ih =>
      rename_i b t l'
      intro H T c hh hp hs
      have hh' : c.hist = H ++ ((a, b) :: (l' ++ T)) := by
        rw [hh]; simp
      have hlen : (c.hist.length : Int) =
          (H.length : Int) + 1 + l'.length + T.length := by
        rw [hh]; simp; ring
      have h0 : c.pos < (c.hist.length : Int) - 1 := by
        rw [hp, hlen]; omega
      have htn : (c.pos + 1).toNat = H.length := by
        rw [hp]; omega
      have hget : c.hist[(c.pos + 1).toNat]? = some (a, b) := by
        rw [hh', htn, List.getElem?_append_right (le_refl H.length)]
        simp
      obtain ⟨-, hstate, hhist, hpos⟩ := compRedo_spec derive c (a, b) h0 hget
      have step : redoN derive c ((a, b) :: l').length
          = redoN derive (compRedo derive c).1 l'.length := by
        simp only [List.length_cons]
        rw [redoN_succ]
      obtain ⟨r1, r2, r3⟩ := ih (H ++ [(a, b)]) T (compRedo derive c).1
        (by rw [hhist, hh]; simp)
        (by rw [hpos, hp]; simp)
        hstate
      refine ⟨?_, ?_, ?_⟩
      · rw [step]; exact r1
      · rw [step, r2, hhist]
      · rw [step, r3]
        simp only [List.length_append, List.length_cons, List.length_nil]
        push_cast
        ring

/-- Structure of a successful `setState` sequence started with the cursor at
the tail: the commands of the sequence are appended to the history, the
cursor follows the tail and the data state follows the sequence. -/
theorem runSets_tail {σ : Type} [DecidableEq σ] (derive : σ → String)
    (gs : List (σ → σ)) :
    ∀ c : Comp σ, c.pos = (c.hist.length : Int) - 1 → setsOk derive c gs →
      (runSets derive c gs).state = endOf c.state gs ∧
      (runSets derive c gs).hist = c.hist ++ chainOf c.state gs ∧
      (runSets derive c gs).pos = (c.hist.length : Int) + gs.length - 1 := by
  induction gs with
  | nil =>
      intro c hp _
      refine ⟨rfl, by simp [runSets, chainOf], ?_⟩
      simpa [runSets] using hp
  | cons g gs ih =>
      intro c hp hok
      obtain ⟨h1, hok'⟩ := hok
      have hne : c.state ≠ g c.state :=
        (setStateFull_snd_iff derive c (g c.state)).1 h1
      have htn : (c.pos + 1).toNat = c.hist.length := by
        rw [hp]; omega
      have hhist1 : (setStateFull derive c (g c.state)).1.hist
          = c.hist ++ [(c.state, g c.state)] := by
        rw [setStateFull_hist derive c (g c.state) hne, htn, List.take_length]
      have hpos1 : (setStateFull derive c (g c.state)).1.pos
          = ((setStateFull derive c (g c.state)).1.hist.length : Int) - 1 :=
        setStateFull_cursor_tail derive c (g c.state) h1
      have hstate1 : (setStateFull derive c (g c.state)).1.state = g c.state :=
        setStateFull_state derive c (g c.state) hne
      obtain ⟨r1, r2, r3⟩ := ih (setStateFull derive c (g c.state)).1 hpos1 hok'
      refine ⟨?_, ?_, ?_⟩
      · rw [runSets, r1, hstate1]; rfl
      · rw [runSets, r2, hhist1, hstate1]
        simp [chainOf]
      · rw [runSets, r3, hhist1]
        simp only [List.length_append, List.length_cons, List.length_nil]
        push_cast
        ring

/-- The snapshot delivery of the dist emitter invokes exactly the callbacks
registered when delivery starts, in registration order, whatever the
callbacks do to the live list. -/
theorem notifySnapshot_invokes_all (l : List Cb) :
    (notifySnapshot l).1 = l.map Cb.id := by
  have aux : ∀ (l : List Cb) (inv : List Nat) (live : List Cb),
      (l.foldl (fun (acc : List Nat × List Cb) cb =>
        (acc.1 ++ [cb.id], applyAct cb.act acc.2)) (inv, live)).1
        = inv ++ l.map Cb.id := by
    intro l
    induction l with
    | nil => intro inv live; simp
    | cons cb l ih =>
        intro inv live
        simp only [List.foldl_cons, List.map_cons]
        rw [ih]
        simp
  simpa using aux l [] l

/-! ## Claim theorems -/

/-- C1: the claim states that `notifyObservers(event, data)` invokes exactly
the callbacks registered for the event at the moment delivery starts, by
iterating over a snapshot of the subscriber list, so that unsubscription
during delivery cannot change who receives the in-progress notification.
The TS emitter of `src/unnamed/part_024` iterates the **live** array: with
subscribers `[cb0, cb1]` where `cb0` unsubscribes itself when invoked, it
delivers only to `cb0` and skips `cb1`, while the dist emitter
(`event-emitter.js`), which does iterate a copy, delivers to both — the TS
copy contradicts the spec and the repository's own shipped artifact. -/
theorem c1_ts_emitter_skips_remaining_callback :
    (notifyLive [⟨0, CbAct.unsub 0⟩, ⟨1, CbAct.noop⟩]).1 = [0] ∧
    (notifyLive [⟨0, CbAct.unsub 0⟩, ⟨1, CbAct.noop⟩]).1 ≠
      ([⟨0, CbAct.unsub 0⟩, ⟨1, CbAct.noop⟩] : List Cb).map Cb.id ∧
    (notifySnapshot [⟨0, CbAct.unsub 0⟩, ⟨1, CbAct.noop⟩]).1 =
      ([⟨0, CbAct.unsub 0⟩, ⟨1, CbAct.noop⟩] : List Cb).map Cb.id := by
  decide

/-- C8: whatever subset of the subscribed callbacks throws,
`notifyObservers` still invokes every callback of the delivery (the invoked
ids are exactly the subscribed ids, in order), returns normally, and never
propagates a callback's exception to its caller: the per-callback try/catch
turns each thrown error into a log entry. -/
theorem c8_exception_isolation (l : List Cb8) :
    ∃ errs : List String,
      notifyObservers8 l = Except.ok (l.map Cb8.id, errs) := by
  have aux : ∀ (l : List Cb8) (inv : List Nat) (errs : List String),
      ∃ errs' : List String,
        l.foldlM tryCatchLog (inv, errs)
          = Except.ok (inv ++ l.map Cb8.id, errs') := by
    intro l
    induction l with
    | nil => intro inv errs; exact ⟨errs, by simp; rfl⟩
    | cons cb l ih =>
        intro inv errs
        rw [List.foldlM_cons]
        by_cases h : cb.throws
        · have hc : tryCatchLog (inv, errs) cb
              = Except.ok (inv ++ [cb.id], errs ++ ["callback error"]) := by
            simp [tryCatchLog, callCb, h]
          rw [hc]
          obtain ⟨errs', he⟩ := ih (inv ++ [cb.id]) (errs ++ ["callback error"])
          exact ⟨errs', by simpa using he⟩
        · have hc : tryCatchLog (inv, errs) cb
              = Except.ok (inv ++ [cb.id], errs) := by
            simp [tryCatchLog, callCb, h]
          rw [hc]
          obtain ⟨errs', he⟩ := ih (inv ++ [cb.id]) errs
          exact ⟨errs', by simpa using he⟩
  obtain ⟨errs, he⟩ := aux l [] []
  exact ⟨errs, by simpa [notifyObservers8] using he⟩

/-- C9 counterexample: the claim states that unsubscription is idempotent
for **every** prior sequence of subscribe calls, including duplicate
registration of the same callback.  With the same callback subscribed
twice, `unsubscribe` (`indexOf` + `splice`) removes one occurrence per
call, so the second call does not leave the list as it was after the
first. -/
theorem c9_duplicate_registration_counterexample :
    emitterUnsubscribe (emitterUnsubscribe
        (emitterSubscribe (emitterSubscribe [] 5) 5) 5) 5 ≠
      emitterUnsubscribe (emitterSubscribe (emitterSubscribe [] 5) 5) 5 := by
  decide

/-- C9 (amended): `unsubscribe` removes the first occurrence of the
callback; when the callback is registered at most once, a second
`unsubscribe(event, callback)` call — or a second call of the closure
returned by `subscribe` — leaves the subscriber list exactly as it was
after the first call. -/
theorem c9_unsubscribe_idempotent (l : List Nat) (id : Nat)
    (h : l.count id ≤ 1) :
    emitterUnsubscribe (emitterUnsubscribe l id) id
      = emitterUnsubscribe l id := by
  unfold emitterUnsubscribe
  by_cases hm : id ∈ l
  · have hc : (l.erase id).count id = 0 := by
      rw [List.count_erase_self]
      omega
    exact List.erase_of_not_mem (List.count_eq_zero.mp hc)
  · rw [List.erase_of_not_mem hm, List.erase_of_not_mem hm]

/-- C9 witness: a concrete singly-registered callback. -/
theorem c9_witness :
    ([5] : List Nat).count 5 ≤ 1 ∧
    emitterUnsubscribe (emitterUnsubscribe [5] 5) 5
      = emitterUnsubscribe [5] 5 :=
  ⟨by decide, c9_unsubscribe_idempotent [5] 5 (by decide)⟩

/-- C3: on every `CommandInvoker` state reachable from the empty history by
any interleaving of `execute`, `undo`, `redo` (and the pure `getHistory`),
the cursor stays in `[-1, length-1]`; `canUndo()` is true exactly when the
cursor is `≥ 0` and `canRedo()` exactly when it is `< length-1`; `undo()` is
a no-op returning false when the cursor is `-1`, and otherwise invokes
`history[cursor].undo()`, decrements the cursor and returns true; `redo()`
is symmetric at the tail. -/
theorem c3_invoker_cursor_contract {α : Type} (inv : CommandInvoker α)
    (h : ReachableInvoker inv) : invokerContract inv := by
  obtain ⟨hlo, hhi⟩ := reachableInvoker_bounds h
  refine ⟨⟨hlo, hhi⟩, ?_, ?_, ?_, ?_, ?_, ?_⟩
  · simp [CommandInvoker.canUndo]
  · simp [CommandInvoker.canRedo]
  · intro hp
    simp [CommandInvoker.undo, CommandInvoker.canUndo, hp]
  · intro hp
    have hlt : inv.currentPosition.toNat < inv.history.length := by omega
    constructor
    · simp [CommandInvoker.undo, CommandInvoker.canUndo, hp]
    · simp [List.getElem?_eq_getElem hlt]
  · intro hp
    simp [CommandInvoker.redo, CommandInvoker.canRedo, hp]
  · intro hp
    have hlt : (inv.currentPosition + 1).toNat < inv.history.length := by
      omega
    constructor
    · simp [CommandInvoker.redo, CommandInvoker.canRedo, hp]
    · simp [List.getElem?_eq_getElem hlt]

/-- C3 witness: the contract evaluated on a concrete reachable invoker. -/
theorem c3_witness :
    ReachableInvoker invokerDemo ∧ invokerContract invokerDemo :=
  ⟨ReachableInvoker.exec 7 ReachableInvoker.init,
    c3_invoker_cursor_contract invokerDemo
      (ReachableInvoker.exec 7 ReachableInvoker.init)⟩

/-- C4: when the merge of a partial state into the current snapshot is
structurally equal to the current snapshot, `setState` returns false,
appends no command, leaves the data state, the current visual-state node,
the history and the cursor unchanged, and publishes no notification of any
kind (the whole component is returned unchanged). -/
theorem c4_setState_idempotent (c : Comp ToggleState) (p : TogglePatch)
    (h : mergeToggle c.state p = c.state) :
    (setStateToggle c p).2 = false ∧ (setStateToggle c p).1 = c := by
  unfold setStateToggle setStateFull
  rw [h]
  simp

/-- C4 witness: the empty partial merges to the current snapshot. -/
theorem c4_witness :
    mergeToggle toggleComp.state {} = toggleComp.state ∧
    ((setStateToggle toggleComp {}).2 = false ∧
      (setStateToggle toggleComp {}).1 = toggleComp) :=
  ⟨rfl, c4_setState_idempotent toggleComp {} rfl⟩

/-- C7: `transitionToState` with a registered name is a no-op — no `exit()`
or `enter()` hook, no `stateTransition`, no `cssStateChanged` — when the
name resolves to the node that is already current; when the target differs,
the log grows by exactly `exit()` on the outgoing node (if any), `enter()`
on the incoming node, the `stateTransition` notification and the
`cssStateChanged` notification, in that order. -/
theorem c7_transition_suppression_and_order {σ : Type} (c : Comp σ)
    (name : String) (hreg : name ∈ c.registry) :
    (c.current = some name → transitionToState c name = c) ∧
    (c.current ≠ some name →
      (transitionToState c name).current = some name ∧
      (transitionToState c name).log = c.log ++
        (match c.current with
          | some old => [LogEntry.exitHook old]
          | none => []) ++
        [LogEntry.enterHook name, LogEntry.notifyEv "stateTransition",
          LogEntry.notifyEv "cssStateChanged"]) := by
  constructor
  · intro hcur
    unfold transitionToState
    rw [if_pos hreg, if_pos hcur]
  · intro hcur
    unfold transitionToState
    rw [if_pos hreg, if_neg hcur]
    exact ⟨rfl, by simp⟩

/-- C7 witness: a fresh toggle is already in `idle`; re-deriving into it is
a strict no-op. -/
theorem c7_witness :
    ("idle" ∈ toggleComp.registry) ∧
    (transitionToState toggleComp "idle" = toggleComp) :=
  ⟨by decide,
    (c7_transition_suppression_and_order toggleComp "idle" (by decide)).1
      (by decide)⟩

/-- C5: after an `undo()` that returned true and a subsequent `setState`
that returned true, `redo()` returns false (and leaves the component
unchanged) and `getHistory().canRedo` is false: executing a new command
truncates the history to `history[0..cursor+1]` before appending and parks
the cursor at the new tail. -/
theorem c5_redo_tail_invalidation {σ : Type} [DecidableEq σ]
    (derive : σ → String) (c : Comp σ) (next : σ)
    (_h1 : (compUndo derive c).2 = true)
    (h2 : (setStateFull derive (compUndo derive c).1 next).2 = true) :
    compRedo derive (setStateFull derive (compUndo derive c).1 next).1
      = ((setStateFull derive (compUndo derive c).1 next).1, false) ∧
    (compHistory (setStateFull derive (compUndo derive c).1 next).1).canRedo
      = false := by
  have hp := setStateFull_cursor_tail derive (compUndo derive c).1 next h2
  have hnr : ¬ ((setStateFull derive (compUndo derive c).1 next).1.pos <
      ((setStateFull derive (compUndo derive c).1 next).1.hist.length : Int)
        - 1) := by
    omega
  constructor
  · unfold compRedo
    rw [if_neg hnr]
  · simp only [compHistory]
    exact decide_eq_false hnr

/-- C5 witness: toggle with one committed change, undone, then a fresh
`setState`. -/
theorem c5_witness :
    (compUndo deriveToggle toggleOnce).2 = true ∧
    (setStateFull deriveToggle (compUndo deriveToggle toggleOnce).1
      toggleCheckedState).2 = true ∧
    (compRedo deriveToggle (setStateFull deriveToggle
        (compUndo deriveToggle toggleOnce).1 toggleCheckedState).1
      = ((setStateFull deriveToggle (compUndo deriveToggle toggleOnce).1
          toggleCheckedState).1, false) ∧
     (compHistory (setStateFull deriveToggle
        (compUndo deriveToggle toggleOnce).1 toggleCheckedState).1).canRedo
      = false) :=
  ⟨by decide, by decide,
    c5_redo_tail_invalidation deriveToggle toggleOnce toggleCheckedState
      (by decide) (by decide)⟩

/-- A `setState` call only ever adds `stateChanged`, `stateTransition` and
`cssStateChanged` notifications (plus hook entries) to the log — in
particular no semantic event. -/
theorem setStateFull_log_delta {σ : Type} [DecidableEq σ] (d : σ → String)
    (c : Comp σ) (n : σ) :
    ∃ Δ : List LogEntry, (setStateFull d c n).1.log = c.log ++ Δ ∧
      ∀ e : String, LogEntry.notifyEv e ∈ Δ →
        e = "stateChanged" ∨ e = "stateTransition" ∨ e = "cssStateChanged" := by
  unfold setStateFull
  split_ifs with h
  · exact ⟨[], by simp, by simp⟩
  · simp only [cmdExec, compNotify, updateCurrent]
    unfold transitionToState
    split_ifs with hreg hcur
    · exact ⟨[LogEntry.notifyEv "stateChanged"], by simp, by
        intro e he; simp at he; simp [he]⟩
    · cases hc : c.current with
      | none =>
          refine ⟨[LogEntry.enterHook (d n), LogEntry.notifyEv "stateTransition",
            LogEntry.notifyEv "cssStateChanged",
            LogEntry.notifyEv "stateChanged"], ?_, ?_⟩
          · simp [hc]
          · intro e he
            simp at he
            rcases he with h' | h' | h' <;> simp [h']
      | some old =>
          refine ⟨[LogEntry.exitHook old, LogEntry.enterHook (d n),
            LogEntry.notifyEv "stateTransition",
            LogEntry.notifyEv "cssStateChanged",
            LogEntry.notifyEv "stateChanged"], ?_, ?_⟩
          · simp [hc]
          · intro e he
            simp at he
            rcases he with h' | h' | h' <;> simp [h']
    · exact ⟨[LogEntry.notifyEv "stateChanged"], by simp, by
        intro e he; simp at he; simp [he]⟩

/-- C6 counterexample: the claim asserts that **every** strategy whose
guard condition holds (e.g. `isDisabled` true) returns `{prevented: true}`
and leaves the data state unchanged; `HoverStrategy.handle` on a disabled
toggle returns `{prevented: false}` and does change the data state (it
updates the hover flag for visual feedback). -/
theorem c6_hover_disabled_counterexample :
    toggleDisabled.state.isDisabled = true ∧
    (hoverHandle toggleDisabled true).2.prevented = false ∧
    (hoverHandle toggleDisabled true).1.state ≠ toggleDisabled.state := by
  decide

/-- C6 (amended): the guard contract holds for the guard-rejecting
strategies — shown for the cited `ToggleClickStrategy.handle`: when
`isDisabled` or `isLoading` holds it returns `{prevented: true, handled:
false}` with the non-empty reason `"disabled or loading"` and returns the
component completely unchanged (no new snapshot, no command, no event).
`HoverStrategy.handle` is the documented exception: while disabled it still
merges the hover flag into the data state, returns `{prevented: false,
handled: true}` with a non-empty reason, and publishes no `hoverChanged`
(semantic) event. -/
theorem c6_guarded_interactions (c : Comp ToggleState) :
    ((c.state.isDisabled = true ∨ c.state.isLoading = true) →
      toggleClickHandle c
        = (c, ⟨true, some "disabled or loading", some false⟩)) ∧
    (∀ hov : Bool, c.state.isDisabled = true →
      (hoverHandle c hov).2
        = ⟨false, some "disabled, visual hover only", some true⟩ ∧
      (hoverHandle c hov).1.state
        = mergeToggle c.state { isHovered := some hov } ∧
      (hoverHandle c hov).1.log.count (LogEntry.notifyEv "hoverChanged")
        = c.log.count (LogEntry.notifyEv "hoverChanged")) := by
  constructor
  · intro h
    have hg : (c.state.isDisabled || c.state.isLoading) = true := by
      rcases h with h | h <;> simp [h]
    unfold toggleClickHandle
    simp [hg]
  · intro hov hdis
    unfold hoverHandle
    simp only [hdis, if_true]
    refine ⟨by trivial, ?_, ?_⟩
    · unfold setStateToggle
      by_cases hm : c.state = mergeToggle c.state { isHovered := some hov }
      · rw [← hm]
        unfold setStateFull
        simp
      · exact setStateFull_state deriveToggle c _ hm
    · unfold setStateToggle
      obtain ⟨Δ, hlog, hmem⟩ :=
        setStateFull_log_delta deriveToggle c
          (mergeToggle c.state { isHovered := some hov })
      rw [hlog, List.count_append]
      have h0 : Δ.count (LogEntry.notifyEv "hoverChanged") = 0 := by
        rw [List.count_eq_zero]
        intro hmem'
        rcases hmem "hoverChanged" hmem' with h' | h' | h' <;>
          exact absurd h' (by decide)
      omega

/-- C6 witness: both parts of the amended contract, evaluated on a disabled
toggle. -/
theorem c6_witness :
    (toggleDisabled.state.isDisabled = true ∨
      toggleDisabled.state.isLoading = true) ∧
    toggleClickHandle toggleDisabled
      = (toggleDisabled, ⟨true, some "disabled or loading", some false⟩) ∧
    (hoverHandle toggleDisabled true).2
      = ⟨false, some "disabled, visual hover only", some true⟩ :=
  ⟨Or.inl (by decide),
    (c6_guarded_interactions toggleDisabled).1 (Or.inl (by decide)),
    ((c6_guarded_interactions toggleDisabled).2 true (by decide)).1⟩

/-- C2: for every well-formed component and every sequence of `setState`
calls that each return true, performing as many `undo()` calls yields a
data state structurally equal to the state held before the sequence, and as
many further `redo()` calls yield a data state structurally equal to the
state held after the sequence — each undo/redo adopting the snapshot
captured in its command when the command was created. -/
theorem c2_undo_redo_roundtrip {σ : Type} [DecidableEq σ]
    (derive : σ → String) (c : Comp σ) (gs : List (σ → σ))
    (hWF : CompWF c) (hok : setsOk derive c gs) :
    (undoN derive (runSets derive c gs) gs.length).state = c.state ∧
    (redoN derive (undoN derive (runSets derive c gs) gs.length)
        gs.length).state = (runSets derive c gs).state := by
  cases gs with
  | nil => exact ⟨rfl, rfl⟩
  | cons g gs' =>
      obtain ⟨h1, hok'⟩ := hok
      obtain ⟨hlo, hhi⟩ := hWF
      have hne : c.state ≠ g c.state :=
        (setStateFull_snd_iff derive c (g c.state)).1 h1
      have hh1 := setStateFull_hist derive c (g c.state) hne
      have hp1 := setStateFull_cursor_tail derive c (g c.state) h1
      have hs1 := setStateFull_state derive c (g c.state) hne
      obtain ⟨r1, r2, r3⟩ :=
        runSets_tail derive gs' (setStateFull derive c (g c.state)).1 hp1 hok'
      have hrun : runSets derive c (g :: gs')
          = runSets derive (setStateFull derive c (g c.state)).1 gs' := rfl
      have hchain : IsCmdChain c.state (chainOf c.state (g :: gs'))
          (endOf c.state (g :: gs')) := chainOf_isCmdChain (g :: gs') c.state
      have hlc : (chainOf c.state (g :: gs')).length = gs'.length + 1 := by
        rw [chainOf_length]
        simp
      have hcfh : (runSets derive (setStateFull derive c (g c.state)).1
            gs').hist
          = c.hist.take (c.pos + 1).toNat ++ chainOf c.state (g :: gs')
              ++ [] := by
        rw [r2, hh1, hs1]
        simp [chainOf]
      have hcfp : (runSets derive (setStateFull derive c (g c.state)).1
            gs').pos
          = ((c.hist.take (c.pos + 1).toNat).length : Int)
              + (chainOf c.state (g :: gs')).length - 1 := by
        rw [r3, hh1, hlc]
        simp only [List.length_append, List.length_cons, List.length_nil]
        push_cast
        ring
      have hcfs : (runSets derive (setStateFull derive c (g c.state)).1
            gs').state
          = endOf c.state (g :: gs') := by
        rw [r1, hs1]
        rfl
      obtain ⟨u1, u2, u3⟩ := undo_chain derive (chainOf c.state (g :: gs'))
        (c.hist.take (c.pos + 1).toNat) [] c.state (endOf c.state (g :: gs'))
        (runSets derive (setStateFull derive c (g c.state)).1 gs')
        hchain hcfh hcfp hcfs
      have hns : (g :: gs').length = (chainOf c.state (g :: gs')).length := by
        rw [hlc]
        simp
      obtain ⟨e1, e2, e3⟩ := redo_chain derive hchain
        (c.hist.take (c.pos + 1).toNat) []
        (undoN derive
          (runSets derive (setStateFull derive c (g c.state)).1 gs')
          (chainOf c.state (g :: gs')).length)
        (by rw [u2]; exact hcfh) u3 u1
      constructor
      · rw [hrun, hns]
        exact u1
      · rw [hrun, hns]
        exact e1.trans hcfs.symm

/-- C2 witness: one committed toggle change, one undo, one redo. -/
theorem c2_witness :
    (CompWF toggleComp ∧ setsOk deriveToggle toggleComp toggleSeq) ∧
    ((undoN deriveToggle (runSets deriveToggle toggleComp toggleSeq)
        toggleSeq.length).state = toggleComp.state ∧
      (redoN deriveToggle (undoN deriveToggle
          (runSets deriveToggle toggleComp toggleSeq) toggleSeq.length)
          toggleSeq.length).state
        = (runSets deriveToggle toggleComp toggleSeq).state) :=
  ⟨⟨by decide, ⟨by decide, trivial⟩⟩,
    c2_undo_redo_roundtrip deriveToggle toggleComp toggleSeq
      (by decide) ⟨by decide, trivial⟩⟩

/-- The final clamp puts the clamp-step-clamped value inside `[min, max]`
whenever `min ≤ max`. -/
theorem sliderClampStep_bounds (mn mx st v : ℚ) (h : mn ≤ mx) :
    mn ≤ sliderClampStep mn mx st v ∧ sliderClampStep mn mx st v ≤ mx := by
  unfold sliderClampStep
  exact ⟨le_max_left _ _, max_le h (min_le_left _ _)⟩

/-- After the shared commit logic the stored value is exactly the
clamp-step-clamped value (whether or not a `setState` was needed). -/
theorem sliderCommit_value (c : Comp SliderState) (v0 : ℚ) :
    (sliderCommit c v0).1.state.value
      = sliderClampStep c.state.min c.state.max c.state.step v0 := by
  unfold sliderCommit
  by_cases h : c.state.value
      = sliderClampStep c.state.min c.state.max c.state.step v0
  · rw [if_pos h]
    exact h
  · rw [if_neg h]
    have hne : c.state ≠ { c.state with
        value := sliderClampStep c.state.min c.state.max c.state.step v0 } := by
      intro he
      exact h (congrArg SliderState.value he)
    have hst := setStateFull_state deriveSlider c
      { c.state with
        value := sliderClampStep c.state.min c.state.max c.state.step v0 } hne
    simp only [compNotify]
    rw [hst]

/-- When the clamp-step-clamped value equals the current value the commit
logic changes nothing and publishes nothing. -/
theorem sliderCommit_noop (c : Comp SliderState) (v0 : ℚ)
    (h : sliderClampStep c.state.min c.state.max c.state.step v0
      = c.state.value) :
    sliderCommit c v0 = (c, ⟨false, none, some true⟩) := by
  unfold sliderCommit
  rw [if_pos h.symm]

/-- C10 counterexample: the claim asserts the bound for **every** slider
state with positive step and `min ≤ max`; but when the slider is disabled
both strategies return before clamping, so a value that is already out of
range (reachable because `setState` is public and bypasses the strategies)
stays out of range. -/
theorem c10_disabled_slider_counterexample :
    0 < sliderBad.state.step ∧
    sliderBad.state.min ≤ sliderBad.state.max ∧
    (sliderUpdateHandle sliderBad 50).1.state.value = 500 ∧
    ¬ ((sliderUpdateHandle sliderBad 50).1.state.value
        ≤ sliderBad.state.max) := by
  decide

/-- C10 (amended): for every slider state with `step > 0`, `min ≤ max` and
the disabled guard **passing** (`isDisabled` false), after
`SliderUpdateStrategy.handle` with any rational payload — and after
`SliderKeyboardStrategy.handle` for any handled key — the stored value lies
in `[min, max]`, because the computed value is clamped to `[min, max]`
again after the step-rounding adjustment; and when the clamped-and-stepped
value equals the current value, the shared commit logic changes no state
and publishes no `valueChanged` event. -/
theorem c10_slider_bounds (c : Comp SliderState)
    (_hstep : 0 < c.state.step) (hrange : c.state.min ≤ c.state.max)
    (hdis : c.state.isDisabled = false) :
    (∀ v : ℚ, c.state.min ≤ (sliderUpdateHandle c v).1.state.value ∧
      (sliderUpdateHandle c v).1.state.value ≤ c.state.max) ∧
    (∀ key : String,
      key ∈ (["ArrowLeft", "ArrowDown", "ArrowRight", "ArrowUp", "Home",
        "End"] : List String) →
      c.state.min ≤ (sliderKeyHandle c key).1.state.value ∧
      (sliderKeyHandle c key).1.state.value ≤ c.state.max) ∧
    (∀ v0 : ℚ, sliderClampStep c.state.min c.state.max c.state.step v0
        = c.state.value →
      sliderCommit c v0 = (c, ⟨false, none, some true⟩)) := by
  have hb : ∀ v0 : ℚ,
      c.state.min ≤ (sliderCommit c v0).1.state.value ∧
      (sliderCommit c v0).1.state.value ≤ c.state.max := by
    intro v0
    rw [sliderCommit_value]
    exact sliderClampStep_bounds _ _ _ _ hrange
  refine ⟨?_, ?_, sliderCommit_noop c⟩
  · intro v
    have hu : sliderUpdateHandle c v = sliderCommit c v := by
      unfold sliderUpdateHandle
      simp [hdis]
    rw [hu]
    exact hb v
  · intro key hk
    fin_cases hk
    · have h' : sliderKeyHandle c "ArrowLeft"
          = sliderCommit c (c.state.value - c.state.step) := by
        unfold sliderKeyHandle
        simp [hdis]
      rw [h']
      exact hb _
    · have h' : sliderKeyHandle c "ArrowDown"
          = sliderCommit c (c.state.value - c.state.step) := by
        unfold sliderKeyHandle
        simp [hdis]
      rw [h']
      exact hb _
    · have h' : sliderKeyHandle c "ArrowRight"
          = sliderCommit c (c.state.value + c.state.step) := by
        unfold sliderKeyHandle
        simp [hdis]
      rw [h']
      exact hb _
    · have h' : sliderKeyHandle c "ArrowUp"
          = sliderCommit c (c.state.value + c.state.step) := by
        unfold sliderKeyHandle
        simp [hdis]
      rw [h']
      exact hb _
    · have h' : sliderKeyHandle c "Home"
          = sliderCommit c c.state.min := by
        unfold sliderKeyHandle
        simp [hdis]
      rw [h']
      exact hb _
    · have h' : sliderKeyHandle c "End"
          = sliderCommit c c.state.max := by
        unfold sliderKeyHandle
        simp [hdis]
      rw [h']
      exact hb _

/-- C10 witness: a fresh enabled slider; an overshooting update is clamped
into the range. -/
theorem c10_witness :
    (0 < sliderComp.state.step ∧
      sliderComp.state.min ≤ sliderComp.state.max ∧
      sliderComp.state.isDisabled = false) ∧
    (sliderComp.state.min ≤ (sliderUpdateHandle sliderComp 250).1.state.value ∧
      (sliderUpdateHandle sliderComp 250).1.state.value
        ≤ sliderComp.state.max) :=
  ⟨⟨by decide, by decide, by decide⟩,
    (c10_slider_bounds sliderComp (by decide) (by decide) (by decide)).1 250⟩
